import Mathlib

/-!
# Verification of the `gw` worktree manager core

A shallow embedding of the core logic of the `gw` git-worktree helper
(src/cmd/mod.rs, src/cmd/exec.rs, src/git.rs, src/meta.rs), together with
theorems checking the natural-language specification against it.

Modelling conventions:
* Filesystem paths and command output are modelled as `String`s; path joining
  `PathBuf::join` is string concatenation with a `/` separator, where joining
  the empty string yields the root unchanged (this matches Rust's component
  wise `PathBuf` equality, under which a trailing separator is irrelevant).
* External effects (running git, reading file mtimes, reading config and
  metadata stores, spawning subprocesses) are passed in as oracle functions;
  the logic under verification is the pure decision/parsing code around them.
* Rust `i64` timestamps are modelled as `Int` (the arithmetic involved is
  nowhere near overflow), `usize` counters as `Nat`.
* String primitives (`starts_with`, `trim`, `trim_end`, `trim_start_matches`)
  are re-implemented on `List Char` so that every definition evaluates by
  kernel reduction; they follow the Rust semantics (for the ASCII data these
  functions are applied to, byte indexing and char indexing coincide).

The file is laid out as all definitions first, then all theorems.
-/

namespace Gw

/-! ## String primitives -/

/-- Rust `str::starts_with`: `pat.data` is a list-prefix of `s.data`. -/
def strStartsWith (s pat : String) : Bool :=
  pat.data.isPrefixOf s.data

/-- Fuel-driven loop of `trim_start_matches`: strip the leading occurrence of
`pat` while it matches. Each successful strip removes at least one character
(the loop only recurses when `pat` is non-empty and a prefix), so fuel
`s.length` makes the fuel inexhaustible. -/
def trimStartFuel (pat : List Char) : Nat → List Char → List Char
  | 0, s => s
  | fuel + 1, s =>
    if pat ≠ [] ∧ pat.isPrefixOf s = true then
      trimStartFuel pat fuel (s.drop pat.length)
    else s

/-- Rust `str::trim_start_matches(pat)`: repeatedly strip the leading
occurrence of `pat`. -/
def trimStartMatches (pat s : String) : String :=
  String.mk (trimStartFuel pat.data s.data.length s.data)

/-- Rust `str::trim_end` (trailing whitespace removed). -/
def rtrim (s : String) : String :=
  String.mk ((s.data.reverse.dropWhile Char.isWhitespace).reverse)

/-- Rust `str::trim` (leading and trailing whitespace removed). -/
def trimStr (s : String) : String :=
  String.mk (((s.data.dropWhile Char.isWhitespace).reverse.dropWhile
    Char.isWhitespace).reverse)

/-- Rust `line.chars().nth(n).unwrap_or(' ')`. -/
def charNth (s : String) (n : Nat) : Char :=
  s.data.getD n ' '

/-- `PathBuf::join` on the model: joining the empty string leaves the root
(`PathBuf` equality is component-wise, so a trailing `/` is irrelevant). -/
def joinPath (root sub : String) : String :=
  if sub = "" then root else root ++ "/" ++ sub

/-- Rust `s.trim_start_matches('/')`: drop every leading `/` character. -/
def stripLeadingSlashes (s : String) : String :=
  String.mk (s.data.dropWhile (· = '/'))

/-!
## Subdirectory resolution (src/cmd/mod.rs, `resolve_subdir`, lines 809-833)

The non-fatal "subdir does not exist" warning is a side effect on stderr and
does not influence the returned path; it is not modelled.
-/

/-- `resolve_subdir` from src/cmd/mod.rs: precedence `cli_root` short-circuit,
then `cli_subdir.or(meta_subdir).or(config_subdir)`, joining a non-empty value
with its leading `/` stripped. -/
def resolveSubdir (wtPath : String) (cliRoot : Bool)
    (cliSubdir metaSubdir configSubdir : Option String) : String :=
  if cliRoot then wtPath
  else
    match (cliSubdir.or metaSubdir).or configSubdir with
    | some s => if s ≠ "" then joinPath wtPath (stripLeadingSlashes s) else wtPath
    | none => wtPath

/-- The effective-working-directory rule as the specification words it
(§4.3/§8): root flag short-circuits to the worktree root; otherwise the
highest-precedence present source (command-line argument, then per-worktree
metadata value, then config default) is joined to the worktree root with any
leading separator stripped; if none is present the result is the root itself.
An empty value joins to the root itself (spec §8: empty string is treated as
absent). -/
def specEffectiveDir (wtPath : String) (rootFlag : Bool)
    (cliArg metaVal configDefault : Option String) : String :=
  if rootFlag then wtPath
  else
    match (cliArg.or metaVal).or configDefault with
    | some s => joinPath wtPath (stripLeadingSlashes s)
    | none => wtPath

/-!
## StatusAnalyzer: dirty counting (src/cmd/mod.rs, `dirty_files`, lines 699-725)

Input is the list of `git status --porcelain` output lines; the git
invocation itself is outside the model.
-/

/-- The four counters of `DirtyInfo` in src/cmd/mod.rs. -/
structure DirtyInfo where
  total : Nat
  staged : Nat
  unstaged : Nat
  untracked : Nat
deriving Repr, DecidableEq

/-- The per-line counting loop of `dirty_files`: a `??` line bumps
`untracked`; otherwise a non-blank first indicator bumps `staged` and a
non-blank second indicator bumps `unstaged` (independently). Returns
`(staged, unstaged, untracked)`. -/
def dirtyCounts : List String → Nat × Nat × Nat
  | [] => (0, 0, 0)
  | line :: rest =>
    let (s, u, t) := dirtyCounts rest
    if strStartsWith line "??" then (s, u, t + 1)
    else
      ((if charNth line 0 ≠ ' ' then s + 1 else s),
       (if charNth line 1 ≠ ' ' then u + 1 else u),
       t)

/-- `dirty_files` from src/cmd/mod.rs: run the counting loop and set
`total := staged + unstaged + untracked`. -/
def dirtyFiles (lines : List String) : DirtyInfo :=
  let (s, u, t) := dirtyCounts lines
  { total := s + u + t, staged := s, unstaged := u, untracked := t }

/-!
## StatusAnalyzer: recent changes (src/cmd/mod.rs, `recent_uncommitted`,
lines 871-904)

`file_mtime` reads the filesystem; it enters the model as the oracle
`mtime : String → Int` (the source maps any failure to `0`).
-/

/-- The status-character selection of `recent_uncommitted` (lines 891-897):
`"??"` yields `'?'`; otherwise a non-blank first (staged) indicator is chosen,
and only a blank first indicator exposes the second (unstaged) character. -/
def statusCharOf (c0 c1 : Char) : Char :=
  if c0 = '?' ∧ c1 = '?' then '?'
  else if c0 ≠ ' ' then c0
  else c1

/-- The per-line processing of the `recent_uncommitted` loop (lines 881-900):
trim the end, skip lines shorter than 3 chars, take the two indicator
characters, take the trimmed path after the separator column, skip empty
paths. Returns the `(file, statusChar)` pair pushed for the line. -/
def parseStatusLine (line : String) : Option (String × Char) :=
  let l := rtrim line
  if l.length < 3 then none
  else
    let file := trimStr (String.mk (l.data.drop 3))
    if file = "" then none
    else some (file, statusCharOf (charNth l 0) (charNth l 1))

/-- `recent_uncommitted` from src/cmd/mod.rs: collect `(file, char, mtime)`
entries, sort by mtime descending, truncate to `max`. -/
def recentUncommitted (mtime : String → Int) (lines : List String)
    (max : Nat) : List (String × Char × Int) :=
  let results := lines.filterMap fun line =>
    (parseStatusLine line).map fun fc => (fc.1, fc.2, mtime fc.1)
  (results.mergeSort fun a b => b.2.2 ≤ a.2.2).take max

/-!
## WorktreeRegistry (src/git.rs, `Git::worktrees`, lines 64-94)

Input is the list of `git worktree list --porcelain` output lines; the git
invocation itself is outside the model (its failure propagates before any
parsing happens).
-/

/-- The `Worktree` record of src/git.rs. -/
structure Worktree where
  path : String
  branch : Option String
  head : Option String
deriving Repr, DecidableEq

/-- Effect of one non-`worktree` line on the block being accumulated
(lines 79-88 of src/git.rs): a `branch ` line overwrites `branch`, a `HEAD `
line overwrites `head`, anything else is ignored. -/
def wtUpdate (wt : Worktree) (line : String) : Worktree :=
  if strStartsWith line "branch " then
    { wt with branch := some (trimStr (trimStartMatches "branch " line)) }
  else if strStartsWith line "HEAD " then
    { wt with head := some (trimStr (trimStartMatches "HEAD " line)) }
  else wt

/-- The accumulator loop of `Git::worktrees` (lines 66-92): a `worktree ` line
pushes the block in progress and starts a fresh record; other lines update the
block in progress (and are dropped when no block has started); the last block
is pushed at end of input. -/
def wtLoop : List String → Option Worktree → List Worktree
  | [], cur => cur.toList
  | line :: rest, cur =>
    if strStartsWith line "worktree " then
      cur.toList ++
        wtLoop rest (some ⟨trimStartMatches "worktree " line, none, none⟩)
    else
      wtLoop rest (cur.map (wtUpdate · line))

/-- `Git::worktrees` from src/git.rs, applied to the listing's lines. -/
def worktreesOf (lines : List String) : List Worktree :=
  wtLoop lines none

/-- Spec-side block parser (§4.1): a block's record starts from its
`worktree ` line with `branch = none` and `head = none` (detached HEAD when no
`branch` line appears) and is updated by the block's remaining lines. -/
def blockRecord (path : String) (block : List String) : Worktree :=
  block.foldl wtUpdate ⟨path, none, none⟩

/-- Spec-side parser (§4.1): split the listing into blocks, each starting at
a `worktree <path>` line and extending to the next one; lines before the
first `worktree ` line, and unrecognized lines inside a block, are ignored,
never errors; records appear in input order, one per `worktree ` line. -/
def specWorktrees : List String → List Worktree
  | [] => []
  | line :: rest =>
    if strStartsWith line "worktree " then
      blockRecord (trimStartMatches "worktree " line)
          (rest.takeWhile fun l => !strStartsWith l "worktree ") ::
        specWorktrees (rest.dropWhile fun l => !strStartsWith l "worktree ")
    else specWorktrees rest
termination_by lines => lines.length
decreasing_by
  · simp only [List.length_cons]
    have h : ∀ (l : List String) (p : String → Bool),
        (l.dropWhile p).length ≤ l.length := by
      intro l p
      induction l with
      | nil => simp
      | cons a l ih =>
        by_cases hpa : p a
        · simp only [List.dropWhile_cons, hpa, if_true]
          exact Nat.le_succ_of_le ih
        · simp [List.dropWhile_cons, hpa]
    exact Nat.lt_succ_of_le (h rest _)
  · simp only [List.length_cons]
    omega

/-!
## StalenessPolicy (src/cmd/mod.rs, `gc`, lines 558-604)

Oracles stand for the per-worktree external queries made in the loop body:
`nameOf` for `worktree_name_with_config` (canonicalized path arithmetic),
`lockedOf` for `is_locked` (lock-file presence, keyed by name), `dirtyOf` for
`dirty_files(...).total` (keyed by path), `metaTsOf` for the metadata's
parsed `last_activity_at` RFC3339 timestamp (keyed by name, `none` when the
entry or field is absent or unparseable), `lastCommitOf` for
`last_commit_unix` (keyed by path), and `mergedOf` for `branch_merged`
(keyed by path).
-/

/-- The `last_activity` computation of `gc` (lines 573-578):
`meta last_activity_at` if present, else the last-commit timestamp
(`unwrap_or(0)` applied first, line 572), else `0`. -/
def lastActivityOf (metaTs lastCommit : Option Int) : Int :=
  metaTs.getD (lastCommit.getD 0)

/-- The staleness test of `gc` (line 581):
`now - last_activity >= stale_days * 24 * 60 * 60`. -/
def gcStale (now lastActivity staleDays : Int) : Bool :=
  staleDays * 24 * 60 * 60 ≤ now - lastActivity

/-- The per-worktree candidacy decision of `gc` (lines 568-584): locked
worktrees are skipped; otherwise a worktree is a candidate when it is stale
or clean (`dirty.total == 0`) and merged. -/
def gcConsider (now staleDays : Int) (locked : Bool) (dirtyTotal : Nat)
    (metaTs lastCommit : Option Int) (merged : Bool) : Bool :=
  if locked then false
  else
    gcStale now (lastActivityOf metaTs lastCommit) staleDays ||
      (dirtyTotal == 0 && merged)

/-- The candidate-collection loop of `gc` (lines 563-585): worktrees without
a resolvable short name are skipped; each remaining unlocked worktree passing
`gcConsider` contributes the pair `(name, path)` — and nothing else — to the
candidate list. -/
def gcCandidates (now staleDays : Int) (nameOf : String → Option String)
    (lockedOf : String → Bool) (dirtyOf : String → Nat)
    (metaTsOf : String → Option Int) (lastCommitOf : String → Option Int)
    (mergedOf : String → Bool) (worktrees : List Worktree) :
    List (String × String) :=
  worktrees.filterMap fun wt =>
    match nameOf wt.path with
    | none => none
    | some name =>
      if gcConsider now staleDays (lockedOf name) (dirtyOf wt.path)
          (metaTsOf name) (lastCommitOf wt.path) (mergedOf wt.path) then
        some (name, wt.path)
      else none

/-!
## TaskRunner (src/cmd/exec.rs, `exec_cmd`)

The subprocess outcome enters as the oracle `runOk : String → Bool` keyed by
the run directory: `run_shell(&cmd, &path).unwrap_or(false)`, so a spawn
failure is already collapsed to `false` exactly as in the source. The model
returns `(visited, reported, result)`: the target names whose command was
run, in execution order; the names printed in `exec failed: {name}` messages;
and the returned `Result`.
-/

/-- `GwError` (code, message) from src/main.rs. -/
structure GwErr where
  code : Nat
  msg : String
deriving Repr, DecidableEq

/-- The fields of `ExecArgs` (src/cli.rs) consumed by `exec_cmd`. -/
structure ExecArgs where
  worktrees : List String
  all : Bool
  parallel : Bool
  failFast : Bool
  root : Bool
  subdir : Option String
deriving Repr, DecidableEq

/-- `find_worktree` from src/cmd/mod.rs (lines 797-807): first listed
worktree whose resolved short name equals `name`. -/
def findWorktree (nameOf : String → Option String) (wts : List Worktree)
    (name : String) : Option Worktree :=
  wts.find? fun wt => nameOf wt.path == some name

/-- `resolve_worktree_dir` from src/cmd/mod.rs (lines 835-851): look up the
metadata subdir by name and the config default, then `resolve_subdir`. -/
def resolveWorktreeDir (metaSubdirOf : String → Option String)
    (configSubdir : Option String) (wtPath wtName : String) (cliRoot : Bool)
    (cliSubdir : Option String) : String :=
  resolveSubdir wtPath cliRoot cliSubdir (metaSubdirOf wtName) configSubdir

/-- The named-target loop of `exec_cmd` (lines 28-41 of src/cmd/exec.rs):
resolve each requested name via `find_worktree`, failing with
`worktree not found` on the first name that does not resolve. -/
def execTargetsNamed (nameOf metaSubdirOf : String → Option String)
    (configSubdir : Option String) (wts : List Worktree) (args : ExecArgs) :
    List String → Except GwErr (List (String × String))
  | [] => .ok []
  | name :: rest =>
    match findWorktree nameOf wts name with
    | none => .error ⟨1, "worktree not found"⟩
    | some wt =>
      (execTargetsNamed nameOf metaSubdirOf configSubdir wts args rest).map
        ((name, resolveWorktreeDir metaSubdirOf configSubdir wt.path name
          args.root args.subdir) :: ·)

/-- Target selection of `exec_cmd` (lines 7-41):
`target_all = args.all || args.worktrees.is_empty()`; in the all case every
worktree resolving to a short name becomes a target, otherwise the named
targets are resolved (erroring on an unknown name). -/
def execTargets (nameOf metaSubdirOf : String → Option String)
    (configSubdir : Option String) (wts : List Worktree) (args : ExecArgs) :
    Except GwErr (List (String × String)) :=
  if args.all || args.worktrees.isEmpty then
    .ok (wts.filterMap fun wt =>
      (nameOf wt.path).map fun name =>
        (name, resolveWorktreeDir metaSubdirOf configSubdir wt.path name
          args.root args.subdir))
  else
    execTargetsNamed nameOf metaSubdirOf configSubdir wts args args.worktrees

/-- The sequential execution loop of `exec_cmd` (lines 69-79): run each
target in order; on failure print the name and, when fail-fast, return the
error at once; at the end of the loop return `Ok(())` (lines 81). -/
def execRunSeq (runOk : String → Bool) (failFast : Bool) :
    List (String × String) → List String × List String × Except GwErr Unit
  | [] => ([], [], .ok ())
  | (name, path) :: rest =>
    if runOk path then
      let (v, rep, r) := execRunSeq runOk failFast rest
      (name :: v, rep, r)
    else if failFast then ([name], [name], .error ⟨1, "exec failed"⟩)
    else
      let (v, rep, r) := execRunSeq runOk failFast rest
      (name :: v, name :: rep, r)

/-- The parallel execution of `exec_cmd` (lines 45-68): every target is
dispatched, all are joined, failed names are printed in join order, and an
error is returned iff any target failed. (Thread interleaving has no
observable effect on this result; joins happen in spawn order.) -/
def execRunPar (runOk : String → Bool) (targets : List (String × String)) :
    List String × List String × Except GwErr Unit :=
  let failedNames := (targets.filter fun t => !runOk t.2).map Prod.fst
  (targets.map Prod.fst, failedNames,
    if failedNames.isEmpty then .ok () else .error ⟨1, "exec failed"⟩)

/-- `exec_cmd` from src/cmd/exec.rs: select targets (propagating a not-found
error before anything runs), then run them in parallel exactly when
`args.parallel && !args.fail_fast` (line 43), sequentially otherwise. -/
def execCmd (nameOf metaSubdirOf : String → Option String)
    (configSubdir : Option String) (runOk : String → Bool)
    (wts : List Worktree) (args : ExecArgs) :
    List String × List String × Except GwErr Unit :=
  match execTargets nameOf metaSubdirOf configSubdir wts args with
  | .error e => ([], [], .error e)
  | .ok targets =>
    if args.parallel && !args.failFast then execRunPar runOk targets
    else execRunSeq runOk args.failFast targets

/-!
## Metadata store (src/meta.rs)

The JSON documents handled by serde are modelled by the `Json` inductive;
objects are association lists (serde_json object field order is irrelevant to
lookup). `WorktreeMeta`'s serde semantics: every `Option` field tolerates
absence or `null` (→ `none`); `notes`/`tags` carry `#[serde(default)]`
(absence → `[]`); `subdir` additionally carries
`#[serde(skip_serializing_if = "Option::is_none")]`, so a `none` subdir is
omitted on save. `MetaStore::new` applies `unwrap_or_default()` to the parse
result, so loading never fails.
-/

/-- A model of the JSON documents involved. -/
inductive Json where
  | null
  | str (s : String)
  | arr (items : List Json)
  | obj (fields : List (String × Json))
deriving Repr

/-- Field lookup in a JSON object. -/
def jsonLookup (fields : List (String × Json)) (key : String) : Option Json :=
  (fields.find? fun f => f.1 == key).map (·.2)

/-- serde on an `Option<String>` field: missing or `null` → `none`;
a string → `some`; any other shape is a deserialization error. -/
def optStrField (fields : List (String × Json)) (key : String) :
    Option (Option String) :=
  match jsonLookup fields key with
  | none => some none
  | some .null => some none
  | some (.str s) => some (some s)
  | some _ => none

/-- serde on the items of a `Vec<String>` field. -/
def strItems : List Json → Option (List String)
  | [] => some []
  | .str s :: rest => (strItems rest).map (s :: ·)
  | _ => none

/-- serde on a `#[serde(default)] Vec<String>` field: missing → `[]`. -/
def strListField (fields : List (String × Json)) (key : String) :
    Option (List String) :=
  match jsonLookup fields key with
  | none => some []
  | some (.arr items) => strItems items
  | some _ => none

/-- The `WorktreeMeta` record of src/meta.rs (lines 19-30). -/
structure WorktreeMeta where
  created_at : Option String
  created_by : Option String
  notes : List String
  tags : List String
  last_activity_at : Option String
  subdir : Option String
deriving Repr, DecidableEq

/-- Deserialization of one `WorktreeMeta` record. -/
def WorktreeMeta.fromJson (j : Json) : Option WorktreeMeta :=
  match j with
  | .obj fields => do
    let ca ← optStrField fields "created_at"
    let cb ← optStrField fields "created_by"
    let ns ← strListField fields "notes"
    let ts ← strListField fields "tags"
    let la ← optStrField fields "last_activity_at"
    let sd ← optStrField fields "subdir"
    some ⟨ca, cb, ns, ts, la, sd⟩
  | _ => none

/-- serde serialization of an `Option<String>` field value. -/
def optStrJson : Option String → Json
  | none => .null
  | some s => .str s

/-- Serialization of one `WorktreeMeta` record; `subdir` is omitted when
`none` (`skip_serializing_if = "Option::is_none"`). -/
def WorktreeMeta.toJson (m : WorktreeMeta) : Json :=
  .obj ([("created_at", optStrJson m.created_at),
         ("created_by", optStrJson m.created_by),
         ("notes", .arr (m.notes.map .str)),
         ("tags", .arr (m.tags.map .str)),
         ("last_activity_at", optStrJson m.last_activity_at)] ++
    match m.subdir with
    | some s => [("subdir", Json.str s)]
    | none => [])

/-- Deserialization of the entries of the `worktrees` map. The map is
modelled as the association list of its entries (`HashMap` iteration order is
abstracted into the list order). -/
def metaEntries : List (String × Json) → Option (List (String × WorktreeMeta))
  | [] => some []
  | (k, v) :: rest =>
    match WorktreeMeta.fromJson v with
    | none => none
    | some m => (metaEntries rest).map ((k, m) :: ·)

/-- Deserialization of the whole `MetaData` document
(`#[serde(default)] worktrees`: absence → empty map). -/
def metaDataFromJson (j : Json) : Option (List (String × WorktreeMeta)) :=
  match j with
  | .obj fields =>
    match jsonLookup fields "worktrees" with
    | none => some []
    | some (.obj entries) => metaEntries entries
    | some _ => none
  | _ => none

/-- `MetaStore::new` parsing step (line 39 of src/meta.rs):
`serde_json::from_str(&raw).unwrap_or_default()`. -/
def loadMeta (j : Json) : List (String × WorktreeMeta) :=
  (metaDataFromJson j).getD []

/-- `MetaStore::save` serialization (line 47 of src/meta.rs). -/
def metaDataToJson (d : List (String × WorktreeMeta)) : Json :=
  .obj [("worktrees", .obj (d.map fun e => (e.1, e.2.toJson)))]

/-!
## Theorems
-/

/-- **C1.** The implemented `resolve_subdir` agrees with the specification's
precedence rule on every combination of worktree root, root-flag, explicit
command-line subdirectory, per-worktree metadata subdir and config default:
the root flag short-circuits to the worktree root, otherwise the
highest-precedence present source is joined to the root with its leading
separator stripped, and with no source present the root itself results. -/
theorem resolveSubdir_eq_specEffectiveDir (wtPath : String) (cliRoot : Bool)
    (cliSubdir metaSubdir configSubdir : Option String) :
    resolveSubdir wtPath cliRoot cliSubdir metaSubdir configSubdir =
      specEffectiveDir wtPath cliRoot cliSubdir metaSubdir configSubdir := by
  unfold resolveSubdir specEffectiveDir
  by_cases hroot : cliRoot
  · simp [hroot]
  · simp only [hroot, if_false, Bool.false_eq_true]
    cases hsub : (cliSubdir.or metaSubdir).or configSubdir with
    | none => rfl
    | some s =>
      by_cases hs : s = ""
      · subst hs
        simp [joinPath, stripLeadingSlashes]
      · simp [hs]

/-- **C4.** Dirty-status counting: `total` always equals
`staged + unstaged + untracked`; a tracked line with both indicator
characters non-blank increments both `staged` and `unstaged` (and so
contributes 2 to `total`); a line starting with the untracked marker
increments only `untracked`. -/
theorem dirtyFiles_counting (lines : List String) (line : String) :
    ((dirtyFiles lines).total =
      (dirtyFiles lines).staged + (dirtyFiles lines).unstaged +
        (dirtyFiles lines).untracked) ∧
    (strStartsWith line "??" = false → charNth line 0 ≠ ' ' →
      charNth line 1 ≠ ' ' →
      (dirtyFiles (line :: lines)).staged = (dirtyFiles lines).staged + 1 ∧
      (dirtyFiles (line :: lines)).unstaged = (dirtyFiles lines).unstaged + 1 ∧
      (dirtyFiles (line :: lines)).untracked = (dirtyFiles lines).untracked ∧
      (dirtyFiles (line :: lines)).total = (dirtyFiles lines).total + 2) ∧
    (strStartsWith line "??" = true →
      (dirtyFiles (line :: lines)).untracked =
        (dirtyFiles lines).untracked + 1 ∧
      (dirtyFiles (line :: lines)).staged = (dirtyFiles lines).staged ∧
      (dirtyFiles (line :: lines)).unstaged = (dirtyFiles lines).unstaged ∧
      (dirtyFiles (line :: lines)).total = (dirtyFiles lines).total + 1) := by
  refine ⟨rfl, ?_, ?_⟩
  · intro hq h0 h1
    rcases hd : dirtyCounts lines with ⟨s, u, t⟩
    simp only [dirtyFiles, dirtyCounts, hd, hq, Bool.false_eq_true, if_false,
      if_pos h0, if_pos h1]
    refine ⟨?_, ?_, ?_, ?_⟩ <;> first
      | trivial
      | omega
  · intro hq
    rcases hd : dirtyCounts lines with ⟨s, u, t⟩
    simp only [dirtyFiles, dirtyCounts, hd, hq, if_true]
    refine ⟨?_, ?_, ?_, ?_⟩ <;> first
      | trivial
      | omega

/-- Witness for C4 at a concrete input: the doubly-flagged line `"MM a"` on
top of an untracked line `"?? b"`. -/
theorem dirtyFiles_counting_witness :
    (strStartsWith "MM a" "??" = false ∧ charNth "MM a" 0 ≠ ' ' ∧
      charNth "MM a" 1 ≠ ' ' ∧
      (dirtyFiles ["MM a", "?? b"]).staged = (dirtyFiles ["?? b"]).staged + 1 ∧
      (dirtyFiles ["MM a", "?? b"]).total = (dirtyFiles ["?? b"]).total + 2) ∧
    (strStartsWith "?? b" "??" = true ∧
      (dirtyFiles ["?? b"]).untracked = (dirtyFiles []).untracked + 1) := by
  have h := dirtyFiles_counting ["?? b"] "MM a"
  have h2 := dirtyFiles_counting [] "?? b"
  refine ⟨⟨by decide, by decide, by decide, ?_, ?_⟩, ⟨by decide, ?_⟩⟩
  · exact (h.2.1 (by decide) (by decide) (by decide)).1
  · exact (h.2.1 (by decide) (by decide) (by decide)).2.2.2
  · exact (h2.2.2 (by decide)).1

/-- **C3 (counterexample).** On the short-status line `"AM x"` the second
(unstaged) indicator is the non-blank `'M'`, yet the status character
attached to the entry is the first (staged) `'A'`: the staged character, not
the unstaged one, takes display precedence, contradicting the claim. -/
theorem parseStatusLine_staged_precedence_cx :
    parseStatusLine "AM x" = some ("x", 'A') ∧
    charNth (rtrim "AM x") 1 = 'M' ∧ ('M' : Char) ≠ ' ' ∧
    parseStatusLine "AM x" ≠ some ("x", 'M') := by
  refine ⟨rfl, rfl, by decide, by decide⟩

/-- **C3 (amended).** Status-character derivation for a produced entry: an
untracked `"??"` line yields `'?'`; otherwise the first (staged) character is
attached whenever it is non-blank, taking display precedence over a
simultaneous unstaged state; only a line whose first indicator is blank
yields the second (unstaged) character. Every entry of `recent_uncommitted`
carries the character derived this way from its line. -/
theorem recentUncommitted_status_char (line : String) (f : String) (c : Char)
    (mtime : String → Int) (lines : List String) (max : Nat)
    (e : String × Char × Int) :
    (parseStatusLine line = some (f, c) →
      (charNth (rtrim line) 0 = '?' ∧ charNth (rtrim line) 1 = '?' → c = '?') ∧
      (¬(charNth (rtrim line) 0 = '?' ∧ charNth (rtrim line) 1 = '?') →
        charNth (rtrim line) 0 ≠ ' ' → c = charNth (rtrim line) 0) ∧
      (charNth (rtrim line) 0 = ' ' → c = charNth (rtrim line) 1)) ∧
    (e ∈ recentUncommitted mtime lines max →
      ∃ l ∈ lines, parseStatusLine l = some (e.1, e.2.1) ∧
        e.2.2 = mtime e.1) := by
  constructor
  · intro hp
    have hc : c = statusCharOf (charNth (rtrim line) 0) (charNth (rtrim line) 1) := by
      simp only [parseStatusLine] at hp
      split at hp
      · exact absurd hp (by simp)
      · split at hp
        · exact absurd hp (by simp)
        · simp only [Option.some.injEq, Prod.mk.injEq] at hp
          exact hp.2.symm
    refine ⟨?_, ?_, ?_⟩
    · intro hqq
      rw [hc, statusCharOf, if_pos hqq]
    · intro hnq h0
      rw [hc, statusCharOf, if_neg hnq, if_pos h0]
    · intro h0
      have hnq : ¬(charNth (rtrim line) 0 = '?' ∧ charNth (rtrim line) 1 = '?') := by
        intro hcontra
        rw [hcontra.1] at h0
        exact absurd h0 (by decide)
      rw [hc, statusCharOf, if_neg hnq, if_neg (not_not_intro h0)]
  · intro he
    have he' : e ∈ lines.filterMap fun line =>
        (parseStatusLine line).map fun fc => (fc.1, fc.2, mtime fc.1) := by
      have := List.take_subset max ((lines.filterMap fun line =>
        (parseStatusLine line).map fun fc => (fc.1, fc.2, mtime fc.1)).mergeSort
          fun a b => b.2.2 ≤ a.2.2)
      have hmem := this he
      exact (List.mem_mergeSort).mp hmem
    rcases List.mem_filterMap.mp he' with ⟨l, hl, hparse⟩
    cases hpl : parseStatusLine l with
    | none => rw [hpl] at hparse; simp at hparse
    | some fc =>
      rw [hpl] at hparse
      simp only [Option.map_some', Option.some.injEq] at hparse
      refine ⟨l, hl, ?_, ?_⟩
      · rw [hpl, ← hparse]
      · rw [← hparse]

/-- Witness for the amended C3 at concrete inputs: `"AM x"` (both indicators
set, staged `'A'` attached), `" M y"` (only unstaged, `'M'` attached),
`"?? z"` (untracked, `'?'` attached), and a membership fact for the produced
entry list. -/
theorem recentUncommitted_status_char_witness :
    ('A' : Char) = charNth (rtrim "AM x") 0 ∧
    ('M' : Char) = charNth (rtrim " M y") 1 ∧
    ('?' : Char) = '?' ∧
    (∃ l ∈ ["AM x"], parseStatusLine l = some ("x", 'A') ∧
      (0 : Int) = (fun _ => (0 : Int)) "x") := by
  refine ⟨?_, ?_, ?_, ?_⟩
  · exact ((recentUncommitted_status_char "AM x" "x" 'A' (fun _ => 0) ["AM x"] 5
      ("x", 'A', 0)).1 rfl).2.1 (by decide) (by decide)
  · exact ((recentUncommitted_status_char " M y" "y" 'M' (fun _ => 0) [] 5
      ("y", 'M', 0)).1 rfl).2.2 (by decide)
  · exact ((recentUncommitted_status_char "?? z" "z" '?' (fun _ => 0) [] 5
      ("z", '?', 0)).1 rfl).1 (by decide)
  · have hval : recentUncommitted (fun _ => (0 : Int)) ["AM x"] 5 =
        ([(("x" : String), 'A', (0 : Int))].mergeSort fun a b => b.2.2 ≤ a.2.2).take 5 :=
      rfl
    have hmem : (("x" : String), 'A', (0 : Int)) ∈
        recentUncommitted (fun _ => 0) ["AM x"] 5 := by
      rw [hval, List.mergeSort_singleton]
      simp
    exact (recentUncommitted_status_char "AM x" "x" 'A' (fun _ => 0) ["AM x"] 5
      ("x", 'A', 0)).2 hmem

/-- `wtUpdate` never changes the `path` of the block in progress. -/
theorem wtUpdate_path (wt : Worktree) (line : String) :
    (wtUpdate wt line).path = wt.path := by
  unfold wtUpdate
  split
  · rfl
  · split <;> rfl

/-- The accumulator loop on an open block: the block's remaining lines (up to
the next `worktree ` line) are folded into the open record, which is emitted
in front of the parse of the rest. -/
theorem wtLoop_some (lines : List String) :
    ∀ wt : Worktree,
      wtLoop lines (some wt) =
        ((lines.takeWhile fun l => !strStartsWith l "worktree ").foldl
            wtUpdate wt) ::
          specWorktrees (lines.dropWhile fun l => !strStartsWith l "worktree ") := by
  induction lines with
  | nil => intro wt; simp [wtLoop, specWorktrees]
  | cons line rest ih =>
    intro wt
    by_cases hw : strStartsWith line "worktree "
    · simp only [wtLoop, hw, if_true, Option.toList_some, List.takeWhile_cons,
        List.dropWhile_cons, Bool.not_eq_eq_eq_not, Bool.not_true,
        Bool.not_false]
      rw [ih ⟨trimStartMatches "worktree " line, none, none⟩]
      simp only [hw, Bool.not_true, Bool.false_eq_true, if_false,
        List.foldl_nil, List.singleton_append]
      rw [specWorktrees]
      simp only [hw, if_true]
      rfl
    · simp only [wtLoop, hw, Bool.false_eq_true, if_false, Option.map_some',
        List.takeWhile_cons, List.dropWhile_cons, Bool.not_eq_eq_eq_not,
        Bool.not_true, Bool.not_false]
      rw [ih (wtUpdate wt line)]
      simp [hw]

/-- **C8.** Worktree-listing parsing equals the spec-side block parser: one
record per `worktree <path>` line in input order; a block with no `branch`
line leaves `branch = none` (detached HEAD) and a `HEAD <hash>` line sets
`head` (both visible in `blockRecord`/`wtUpdate`); lines before any
`worktree ` line and unrecognized lines are ignored; parsing is total, never
an error. In addition the records' paths are, in order, exactly the trimmed
`worktree ` lines. -/
theorem worktreesOf_eq_specWorktrees (lines : List String) :
    worktreesOf lines = specWorktrees lines ∧
    (worktreesOf lines).map Worktree.path =
      (lines.filter fun l => strStartsWith l "worktree ").map
        (trimStartMatches "worktree ") := by
  constructor
  · unfold worktreesOf
    induction lines with
    | nil => simp [wtLoop, specWorktrees]
    | cons line rest ih =>
      by_cases hw : strStartsWith line "worktree "
      · simp only [wtLoop, hw, if_true, Option.toList_none, List.nil_append]
        rw [wtLoop_some rest ⟨trimStartMatches "worktree " line, none, none⟩]
        rw [specWorktrees]
        simp only [hw, if_true]
        rfl
      · simp only [wtLoop, hw, Bool.false_eq_true, if_false, Option.map_none']
        rw [specWorktrees]
        simp only [hw, Bool.false_eq_true, if_false]
        exact ih
  · unfold worktreesOf
    have key : ∀ (ls : List String) (cur : Option Worktree),
        (wtLoop ls cur).map Worktree.path =
          cur.toList.map Worktree.path ++
            (ls.filter fun l => strStartsWith l "worktree ").map
              (trimStartMatches "worktree ") := by
      intro ls
      induction ls with
      | nil => intro cur; simp [wtLoop]
      | cons line rest ih =>
        intro cur
        by_cases hw : strStartsWith line "worktree "
        · simp only [wtLoop, hw, if_true, List.map_append, List.filter_cons,
            if_true]
          rw [ih (some ⟨trimStartMatches "worktree " line, none, none⟩)]
          simp
        · simp only [wtLoop, hw, Bool.false_eq_true, if_false,
            List.filter_cons]
          rw [ih (cur.map (wtUpdate · line))]
          cases cur with
          | none => simp
          | some wt => simp [wtUpdate_path]
    have h := key lines none
    simpa using h

/-- **C5.** For an unlocked worktree with a resolvable name and with the
clean-and-merged alternative path closed, GC candidacy is exactly the
staleness test, inclusive at the boundary: inactivity of exactly
`staleDays * 86400` seconds is a candidate, one second less is not. The
`lastActivity` source chain is the metadata timestamp if present, else the
last-commit timestamp, else `0` — in which latter case the worktree is stale
for every clock value past the threshold itself (always stale in practice). -/
theorem gcConsider_staleness_boundary (now staleDays : Int) (dirtyTotal : Nat)
    (metaTs lastCommit : Option Int) (merged : Bool) :
    ((dirtyTotal == 0 && merged) = false →
      (now - lastActivityOf metaTs lastCommit = staleDays * 86400 →
        gcConsider now staleDays false dirtyTotal metaTs lastCommit merged =
          true) ∧
      (now - lastActivityOf metaTs lastCommit = staleDays * 86400 - 1 →
        gcConsider now staleDays false dirtyTotal metaTs lastCommit merged =
          false)) ∧
    (∀ t, metaTs = some t → lastActivityOf metaTs lastCommit = t) ∧
    (metaTs = none → ∀ c, lastCommit = some c →
      lastActivityOf metaTs lastCommit = c) ∧
    (metaTs = none → lastCommit = none →
      lastActivityOf metaTs lastCommit = 0 ∧
      (staleDays * 86400 ≤ now →
        gcConsider now staleDays false dirtyTotal metaTs lastCommit merged =
          true)) := by
  refine ⟨?_, ?_, ?_, ?_⟩
  · intro hmerge
    constructor
    · intro hb
      simp only [gcConsider, Bool.false_eq_true, if_false, hmerge,
        Bool.or_false, gcStale, decide_eq_true_eq]
      omega
    · intro hb
      simp only [gcConsider, Bool.false_eq_true, if_false, hmerge,
        Bool.or_false, gcStale, decide_eq_false_iff_not]
      omega
  · intro t ht
    simp [lastActivityOf, ht]
  · intro hm c hc
    simp [lastActivityOf, hm, hc]
  · intro hm hc
    refine ⟨by simp [lastActivityOf, hm, hc], ?_⟩
    intro hnow
    simp only [gcConsider, Bool.false_eq_true, if_false, Bool.or_eq_true,
      gcStale, decide_eq_true_eq, lastActivityOf, hm, hc, Option.getD_none]
    left
    omega

/-- Witness for C5 at concrete inputs: `staleDays = 1`, metadata timestamp
`0`; at `now = 86400` (exactly the threshold) the worktree is a candidate, at
`now = 86399` it is not; with neither timestamp source available it is a
candidate as soon as the clock passes the threshold. -/
theorem gcConsider_staleness_boundary_witness :
    gcConsider 86400 1 false 1 (some 0) none false = true ∧
    gcConsider 86399 1 false 1 (some 0) none false = false ∧
    gcConsider 86400 1 false 1 none none false = true := by
  refine ⟨?_, ?_, ?_⟩
  · exact ((gcConsider_staleness_boundary 86400 1 1 (some 0) none false).1
      (by decide)).1 (by decide)
  · exact ((gcConsider_staleness_boundary 86399 1 1 (some 0) none false).1
      (by decide)).2 (by decide)
  · exact (((gcConsider_staleness_boundary 86400 1 1 none none false).2.2.2
      rfl rfl).2) (by decide)

/-- **C6 (counterexample).** Two GC invocations over the same worktree — one
where only the staleness test fires (dirty and unmerged but long inactive),
one where only the clean-and-merged test fires (recent activity, clean,
merged) — produce the *identical* candidate `("a", "/w/a")`: the produced
candidate is a bare `(name, path)` pair, so no reason field (nor any function
of the candidate) can identify which of the two candidacy tests fired. -/
theorem gcCandidates_no_reason_cx :
    (gcCandidates 864000 1
        (fun p => if p = "/w/a" then some "a" else none)
        (fun _ => false) (fun _ => 5) (fun _ => some 0) (fun _ => none)
        (fun _ => false)
        [⟨"/w/a", some "refs/heads/a", none⟩] = [("a", "/w/a")]) ∧
    gcStale 864000 0 1 = true ∧ ((5 : Nat) == 0 && false) = false ∧
    (gcCandidates 0 1
        (fun p => if p = "/w/a" then some "a" else none)
        (fun _ => false) (fun _ => 0) (fun _ => some 0) (fun _ => none)
        (fun _ => true)
        [⟨"/w/a", some "refs/heads/a", none⟩] = [("a", "/w/a")]) ∧
    gcStale 0 0 1 = false ∧ ((0 : Nat) == 0 && true) = true ∧
    ¬∃ reason : String × String → String,
        reason ("a", "/w/a") = "stale" ∧ reason ("a", "/w/a") = "merged-clean" := by
  refine ⟨by decide, by decide, by decide, by decide, by decide, by decide, ?_⟩
  rintro ⟨f, h1, h2⟩
  rw [h1] at h2
  exact absurd h2 (by decide)

/-- **C6 (amended).** Every candidate produced by a GC invocation is a bare
`(name, path)` pair — carrying no reason field — belonging to a listed
worktree whose short name resolved, that is not locked, and for which at
least one of the two candidacy tests (staleness, or clean-and-merged) fired;
which one fired is not recorded in the candidate. -/
theorem gcCandidates_mem_tests (now staleDays : Int)
    (nameOf : String → Option String) (lockedOf : String → Bool)
    (dirtyOf : String → Nat) (metaTsOf : String → Option Int)
    (lastCommitOf : String → Option Int) (mergedOf : String → Bool)
    (wts : List Worktree) (c : String × String) :
    c ∈ gcCandidates now staleDays nameOf lockedOf dirtyOf metaTsOf
        lastCommitOf mergedOf wts →
    ∃ wt ∈ wts, nameOf wt.path = some c.1 ∧ c.2 = wt.path ∧
      lockedOf c.1 = false ∧
      (gcStale now (lastActivityOf (metaTsOf c.1) (lastCommitOf wt.path))
          staleDays = true ∨
        (dirtyOf wt.path = 0 ∧ mergedOf wt.path = true)) := by
  intro hc
  rcases List.mem_filterMap.mp hc with ⟨wt, hwt, hmap⟩
  cases hn : nameOf wt.path with
  | none => rw [hn] at hmap; simp at hmap
  | some name =>
    simp only [hn] at hmap
    by_cases hcond : gcConsider now staleDays (lockedOf name) (dirtyOf wt.path)
        (metaTsOf name) (lastCommitOf wt.path) (mergedOf wt.path) = true
    · rw [if_pos hcond] at hmap
      simp only [Option.some.injEq] at hmap
      subst hmap
      have hlock : lockedOf name = false := by
        by_contra hl
        rw [Bool.not_eq_false] at hl
        rw [gcConsider, if_pos hl] at hcond
        exact absurd hcond (by simp)
      rw [gcConsider, hlock] at hcond
      simp only [Bool.false_eq_true, if_false, Bool.or_eq_true,
        Bool.and_eq_true, beq_iff_eq] at hcond
      exact ⟨wt, hwt, hn, rfl, hlock, hcond⟩
    · rw [if_neg hcond] at hmap
      simp at hmap

/-- Witness for the amended C6 at a concrete input (the stale invocation of
the counterexample). -/
theorem gcCandidates_mem_tests_witness :
    ∃ wt ∈ [(⟨"/w/a", some "refs/heads/a", none⟩ : Worktree)],
      (fun p => if p = "/w/a" then some "a" else none) wt.path = some "a" ∧
      "/w/a" = wt.path ∧ (fun (_ : String) => false) "a" = false ∧
      (gcStale 864000 (lastActivityOf ((fun _ => some 0) "a")
          ((fun _ => none) wt.path)) 1 = true ∨
        ((fun (_ : String) => (5 : Nat)) wt.path = 0 ∧
          (fun (_ : String) => false) wt.path = true)) := by
  exact gcCandidates_mem_tests 864000 1
    (fun p => if p = "/w/a" then some "a" else none)
    (fun _ => false) (fun _ => 5) (fun _ => some 0) (fun _ => none)
    (fun _ => false) [⟨"/w/a", some "refs/heads/a", none⟩] ("a", "/w/a")
    (by decide)

/-- The sequential loop under fail-fast: every target up to and including the
first failure is visited in order; at the first failure the single failing
name is reported and the error returned; targets after it are never run; if
no target fails, all run and `Ok` is returned. -/
theorem execRunSeq_failFast_eq (runOk : String → Bool) :
    ∀ targets : List (String × String),
      execRunSeq runOk true targets =
        match targets.dropWhile (fun t => runOk t.2) with
        | [] => (targets.map Prod.fst, [], Except.ok ())
        | t :: _ =>
          ((targets.takeWhile fun x => runOk x.2).map Prod.fst ++ [t.1],
            [t.1], Except.error ⟨1, "exec failed"⟩) := by
  intro targets
  induction targets with
  | nil => simp [execRunSeq]
  | cons t rest ih =>
    rcases t with ⟨name, path⟩
    by_cases hok : runOk path
    · simp only [execRunSeq, hok, if_true, List.dropWhile_cons,
        List.takeWhile_cons]
      rw [ih]
      cases hd : rest.dropWhile (fun t => runOk t.2) with
      | nil => simp [hd]
      | cons t' rest' => simp [hd]
    · simp only [execRunSeq, hok, Bool.false_eq_true, if_false, if_true,
        List.dropWhile_cons, List.takeWhile_cons]
      simp [hok]

/-- **C7.** Whenever fail-fast is requested, bulk execution takes the
sequential path even when parallel was also requested, visits targets
strictly in selection order, and on the first failing target aborts at once,
reporting exactly that single failure; targets after the first failure are
never executed (when no target fails, all are visited and `Ok` returned). -/
theorem execCmd_failFast (nameOf metaSubdirOf : String → Option String)
    (configSubdir : Option String) (runOk : String → Bool)
    (wts : List Worktree) (args : ExecArgs)
    (targets : List (String × String)) :
    args.failFast = true →
    execTargets nameOf metaSubdirOf configSubdir wts args = .ok targets →
    execCmd nameOf metaSubdirOf configSubdir runOk wts args =
      match targets.dropWhile (fun t => runOk t.2) with
      | [] => (targets.map Prod.fst, [], Except.ok ())
      | t :: _ =>
        ((targets.takeWhile fun x => runOk x.2).map Prod.fst ++ [t.1],
          [t.1], Except.error ⟨1, "exec failed"⟩) := by
  intro hff htg
  unfold execCmd
  rw [htg]
  simp only [hff, Bool.not_true, Bool.and_false, Bool.false_eq_true,
    if_false]
  exact execRunSeq_failFast_eq runOk targets

/-- Witness for C7 at a concrete input: three targets, the second fails;
with fail-fast (and parallel requested as well) only the first two are
visited, the single failure `"b"` is reported, and the error is returned. -/
theorem execCmd_failFast_witness :
    execCmd
      (fun p => if p = "/w/a" then some "a" else if p = "/w/b" then some "b"
        else if p = "/w/c" then some "c" else none)
      (fun _ => none) none (fun p => p != "/w/b")
      [⟨"/w/a", none, none⟩, ⟨"/w/b", none, none⟩, ⟨"/w/c", none, none⟩]
      ⟨[], true, true, true, false, none⟩ =
      (["a", "b"], ["b"], Except.error ⟨1, "exec failed"⟩) := by
  have h := execCmd_failFast
    (fun p => if p = "/w/a" then some "a" else if p = "/w/b" then some "b"
      else if p = "/w/c" then some "c" else none)
    (fun _ => none) none (fun p => p != "/w/b")
    [⟨"/w/a", none, none⟩, ⟨"/w/b", none, none⟩, ⟨"/w/c", none, none⟩]
    ⟨[], true, true, true, false, none⟩
    [("a", "/w/a"), ("b", "/w/b"), ("c", "/w/c")] rfl rfl
  exact h.trans rfl

/-- The sequential loop without fail-fast: every target is visited in order,
every failing target's name is reported, and the final result is `Ok ()`
regardless of failures. -/
theorem execRunSeq_best_effort_eq (runOk : String → Bool) :
    ∀ targets : List (String × String),
      execRunSeq runOk false targets =
        (targets.map Prod.fst,
          (targets.filter fun t => !runOk t.2).map Prod.fst, Except.ok ()) := by
  intro targets
  induction targets with
  | nil => simp [execRunSeq]
  | cons t rest ih =>
    rcases t with ⟨name, path⟩
    by_cases hok : runOk path
    · simp only [execRunSeq, hok, if_true, ih, List.filter_cons,
        Bool.not_true, Bool.false_eq_true, if_false, List.map_cons]
    · simp only [execRunSeq, hok, Bool.false_eq_true, if_false, ih,
        List.filter_cons, List.map_cons]
      simp [hok]

/-- **C2 (counterexample).** Sequential mode without fail-fast, two targets
of which the first fails: both targets are visited and the failure of `"a"`
is reported by name on stderr, yet `exec_cmd` returns `Ok(())` — a success
result — contradicting the claim that a non-success result is reported. -/
theorem execCmd_best_effort_returns_ok_cx :
    execCmd
      (fun p => if p = "/w/a" then some "a" else if p = "/w/b" then some "b"
        else none)
      (fun _ => none) none (fun p => p != "/w/a")
      [⟨"/w/a", none, none⟩, ⟨"/w/b", none, none⟩]
      ⟨[], true, false, false, false, none⟩ =
      (["a", "b"], ["a"], Except.ok ()) ∧
    (fun p : String => p != "/w/a") "/w/a" = false := by
  exact ⟨rfl, rfl⟩

/-- **C2 (amended).** In sequential mode without fail-fast, bulk execution
visits all N targets in order and prints a failure message naming each failed
target (including a target whose command could not be launched, which is
collapsed to a failure), but then returns `Ok(())`: the overall returned
result is success even when some target failed. -/
theorem execCmd_best_effort (nameOf metaSubdirOf : String → Option String)
    (configSubdir : Option String) (runOk : String → Bool)
    (wts : List Worktree) (args : ExecArgs)
    (targets : List (String × String)) :
    args.failFast = false → args.parallel = false →
    execTargets nameOf metaSubdirOf configSubdir wts args = .ok targets →
    execCmd nameOf metaSubdirOf configSubdir runOk wts args =
      (targets.map Prod.fst,
        (targets.filter fun t => !runOk t.2).map Prod.fst, Except.ok ()) := by
  intro hff hpar htg
  unfold execCmd
  rw [htg]
  simp only [hpar, Bool.false_and, Bool.false_eq_true, if_false, hff]
  exact execRunSeq_best_effort_eq runOk targets

/-- Witness for the amended C2 at a concrete input: two targets, the first
fails; both are visited, `"a"` is reported, and `Ok(())` is returned. -/
theorem execCmd_best_effort_witness :
    execCmd
      (fun p => if p = "/w/x" then some "x" else if p = "/w/y" then some "y"
        else none)
      (fun _ => none) none (fun p => p != "/w/x")
      [⟨"/w/x", none, none⟩, ⟨"/w/y", none, none⟩]
      ⟨[], true, false, false, false, none⟩ =
      (["x", "y"], ["x"], Except.ok ()) := by
  have h := execCmd_best_effort
    (fun p => if p = "/w/x" then some "x" else if p = "/w/y" then some "y"
      else none)
    (fun _ => none) none (fun p => p != "/w/x")
    [⟨"/w/x", none, none⟩, ⟨"/w/y", none, none⟩]
    ⟨[], true, false, false, false, none⟩
    [("x", "/w/x"), ("y", "/w/y")] rfl rfl rfl
  exact h.trans rfl

/-- The named-target loop errors with `worktree not found` whenever some
requested name fails to resolve. -/
theorem execTargetsNamed_not_found (nameOf metaSubdirOf : String → Option String)
    (configSubdir : Option String) (wts : List Worktree) (args : ExecArgs)
    (name : String) :
    ∀ names : List String, name ∈ names →
      findWorktree nameOf wts name = none →
      execTargetsNamed nameOf metaSubdirOf configSubdir wts args names =
        .error ⟨1, "worktree not found"⟩ := by
  intro names
  induction names with
  | nil => intro h; exact absurd h (List.not_mem_nil name)
  | cons n rest ih =>
    intro hmem hnf
    rcases List.mem_cons.mp hmem with heq | htail
    · subst heq
      simp [execTargetsNamed, hnf]
    · cases hfw : findWorktree nameOf wts n with
      | none => simp [execTargetsNamed, hfw]
      | some wt =>
        simp only [execTargetsNamed, hfw]
        rw [ih htail hnf]
        rfl

/-- **C10.** Target selection for bulk exec: with no requested names and the
all-flag unset, the target set is every worktree resolving to a short name —
identical to explicitly requesting all; whereas any explicitly requested name
that does not resolve makes `exec_cmd` return the `worktree not found` error
with no target visited and no failure reported. -/
theorem execCmd_default_all_and_not_found
    (nameOf metaSubdirOf : String → Option String)
    (configSubdir : Option String) (runOk : String → Bool)
    (wts : List Worktree) (args : ExecArgs) :
    (args.worktrees = [] →
      execTargets nameOf metaSubdirOf configSubdir wts args =
        .ok (wts.filterMap fun wt =>
          (nameOf wt.path).map fun name =>
            (name, resolveWorktreeDir metaSubdirOf configSubdir wt.path name
              args.root args.subdir)) ∧
      execTargets nameOf metaSubdirOf configSubdir wts args =
        execTargets nameOf metaSubdirOf configSubdir wts
          { args with all := true }) ∧
    (∀ name, name ∈ args.worktrees → args.all = false →
      findWorktree nameOf wts name = none →
      execCmd nameOf metaSubdirOf configSubdir runOk wts args =
        ([], [], .error ⟨1, "worktree not found"⟩)) := by
  constructor
  · intro hempty
    constructor
    · unfold execTargets
      simp [hempty]
    · unfold execTargets
      simp [hempty]
  · intro name hmem hall hnf
    have hne : args.worktrees.isEmpty = false := by
      cases h : args.worktrees with
      | nil => rw [h] at hmem; exact absurd hmem (List.not_mem_nil name)
      | cons a l => simp
    unfold execCmd execTargets
    rw [hall, hne]
    simp only [Bool.or_self, Bool.false_eq_true, if_false]
    rw [execTargetsNamed_not_found nameOf metaSubdirOf configSubdir wts args
      name args.worktrees hmem hnf]

/-- Witness for C10 at concrete inputs: an empty request selects the one
resolvable worktree (same as `--all`), and requesting the unknown name
`"zz"` yields the not-found error with nothing executed. -/
theorem execCmd_default_all_and_not_found_witness :
    (execTargets (fun p => if p = "/w/a" then some "a" else none)
        (fun _ => none) none [⟨"/w/a", none, none⟩, ⟨"/elsewhere", none, none⟩]
        ⟨[], false, false, false, false, none⟩ = .ok [("a", "/w/a")]) ∧
    (execCmd (fun p => if p = "/w/a" then some "a" else none)
        (fun _ => none) none (fun _ => true)
        [⟨"/w/a", none, none⟩, ⟨"/elsewhere", none, none⟩]
        ⟨["zz"], false, false, false, false, none⟩ =
      ([], [], .error ⟨1, "worktree not found"⟩)) := by
  constructor
  · have h := (execCmd_default_all_and_not_found
      (fun p => if p = "/w/a" then some "a" else none) (fun _ => none) none
      (fun _ => true) [⟨"/w/a", none, none⟩, ⟨"/elsewhere", none, none⟩]
      ⟨[], false, false, false, false, none⟩).1 rfl
    exact h.1.trans (by rfl)
  · exact (execCmd_default_all_and_not_found
      (fun p => if p = "/w/a" then some "a" else none) (fun _ => none) none
      (fun _ => true) [⟨"/w/a", none, none⟩, ⟨"/elsewhere", none, none⟩]
      ⟨["zz"], false, false, false, false, none⟩).2 "zz" (by decide) rfl rfl

/-- Deserializing a list of serialized strings gives the strings back. -/
theorem strItems_map_str (xs : List String) :
    strItems (xs.map Json.str) = some xs := by
  induction xs with
  | nil => rfl
  | cons x rest ih => simp [strItems, ih]

/-- Serializing then deserializing one `WorktreeMeta` record is the
identity. -/
theorem wtMeta_round_trip (m : WorktreeMeta) :
    WorktreeMeta.fromJson m.toJson = some m := by
  rcases m with ⟨ca, cb, ns, ts, la, sd⟩
  cases ca <;> cases cb <;> cases la <;> cases sd <;>
    simp [WorktreeMeta.toJson, WorktreeMeta.fromJson, optStrField,
      strListField, jsonLookup, optStrJson, List.find?_cons, strItems_map_str]

/-- In a successful record parse, the parsed `subdir` is exactly what
`optStrField` yields for the `subdir` key. -/
theorem wtMeta_fromJson_subdir (fields : List (String × Json))
    (m : WorktreeMeta) :
    WorktreeMeta.fromJson (.obj fields) = some m →
    optStrField fields "subdir" = some m.subdir := by
  intro h
  simp only [WorktreeMeta.fromJson, Option.bind_eq_bind] at h
  cases hca : optStrField fields "created_at" with
  | none => rw [hca] at h; simp at h
  | some ca =>
    rw [hca] at h
    cases hcb : optStrField fields "created_by" with
    | none => rw [hcb] at h; simp at h
    | some cb =>
      rw [hcb] at h
      cases hns : strListField fields "notes" with
      | none => rw [hns] at h; simp at h
      | some ns =>
        rw [hns] at h
        cases hts : strListField fields "tags" with
        | none => rw [hts] at h; simp at h
        | some ts =>
          rw [hts] at h
          cases hla : optStrField fields "last_activity_at" with
          | none => rw [hla] at h; simp at h
          | some la =>
            rw [hla] at h
            cases hsd : optStrField fields "subdir" with
            | none => rw [hsd] at h; simp at h
            | some sd =>
              rw [hsd] at h
              obtain rfl : (⟨ca, cb, ns, ts, la, sd⟩ : WorktreeMeta) = m := by
                simpa using h
              rfl

/-- Deserializing the serialized entries of a metadata map gives the entries
back. -/
theorem metaEntries_round_trip (d : List (String × WorktreeMeta)) :
    metaEntries (d.map fun e => (e.1, e.2.toJson)) = some d := by
  induction d with
  | nil => rfl
  | cons e rest ih =>
    simp only [List.map_cons, metaEntries, wtMeta_round_trip e.2, ih,
      Option.map_some']

/-- **C9.** Metadata records missing the optional `subdir` field deserialize
successfully with `subdir = none`; records including it deserialize with the
given value; serializing a record and re-deserializing it is the identity;
and the whole metadata document is round-trip stable: load, then save, then
load yields identical data. -/
theorem metaData_round_trip (fields : List (String × Json))
    (m : WorktreeMeta) (s : String) (d : List (String × WorktreeMeta))
    (j : Json) :
    (WorktreeMeta.fromJson (.obj fields) = some m →
      (jsonLookup fields "subdir" = none → m.subdir = none) ∧
      (jsonLookup fields "subdir" = some (.str s) → m.subdir = some s)) ∧
    WorktreeMeta.fromJson m.toJson = some m ∧
    loadMeta (metaDataToJson d) = d ∧
    loadMeta (metaDataToJson (loadMeta j)) = loadMeta j := by
  have hload : ∀ dd : List (String × WorktreeMeta),
      loadMeta (metaDataToJson dd) = dd := by
    intro dd
    simp [loadMeta, metaDataToJson, metaDataFromJson, jsonLookup,
      List.find?_cons, metaEntries_round_trip]
  refine ⟨?_, wtMeta_round_trip m, hload d, hload (loadMeta j)⟩
  intro hm
  have hsd := wtMeta_fromJson_subdir fields m hm
  constructor
  · intro hlook
    rw [optStrField, hlook] at hsd
    simpa using hsd.symm
  · intro hlook
    rw [optStrField, hlook] at hsd
    simpa using hsd.symm

/-- Witness for C9 at concrete inputs: a record document lacking `subdir`
parses with `subdir = none` (the shape of the repository's own
backward-compatibility test), and one carrying `subdir` parses with that
value. -/
theorem metaData_round_trip_witness :
    ((⟨some "2024-01-01", some "user@host", [], [], none, none⟩ :
        WorktreeMeta).subdir = none) ∧
    ((⟨some "2024-01-01", none, [], [], none, some "services/app"⟩ :
        WorktreeMeta).subdir = some "services/app") := by
  constructor
  · exact ((metaData_round_trip
      [("created_at", .str "2024-01-01"), ("created_by", .str "user@host"),
        ("notes", .arr []), ("tags", .arr [])]
      ⟨some "2024-01-01", some "user@host", [], [], none, none⟩
      "services/app" [] .null).1 rfl).1 rfl
  · exact ((metaData_round_trip
      [("created_at", .str "2024-01-01"), ("subdir", .str "services/app")]
      ⟨some "2024-01-01", none, [], [], none, some "services/app"⟩
      "services/app" [] .null).1 rfl).2 rfl

end Gw
